import Mathlib

/-!
# Verification of the jax-js convolution lowering and backend contract

This file gives a shallow embedding of the convolution frontend of the
jax-js repository (`src/frontend/convolution.ts`, `src/lax.ts`) together
with the view algebra (`ShapeTracker`) and the backend buffer-lifetime
contract that those modules rely on.  The view algebra and the backend
buffer table are not part of the published sources, so they are modelled
from the specification (each such definition carries a doc comment that
says so); everything else is translated directly from the TypeScript
sources.

Conventions of the embedding:
* JavaScript numbers used as array extents are modelled as `Nat`;
  JavaScript numbers used as convolution parameters (which the validator
  explicitly tests for positivity / non-negativity) are modelled as `Int`.
  Non-integral JavaScript numbers are outside the embedding: the source
  rejects them with the same error as non-positive ones.
* `Math.ceil(a / b)` on integers with `b > 0` is modelled as
  `-((-a) / b)` with Euclidean division, which agrees with the floor
  division JavaScript would produce.
* Buffer contents are modelled as lists of rationals (`ℚ`); the padded
  region of a view reads as the fill value `0`.
-/

set_option maxRecDepth 4000

namespace JaxJs

/-! ## List helpers (mirroring `src/utils.ts`: `prod`, `range`, `rep`, `zipn`) -/

/-- Pointwise zip of three lists, truncating to the shortest. -/
def zip3With (f : α → β → γ → δ) : List α → List β → List γ → List δ
  | a :: as, b :: bs, c :: cs => f a b c :: zip3With f as bs cs
  | _, _, _ => []

/-- Pointwise zip of four lists, truncating to the shortest. -/
def zip4With (f : α → β → γ → δ → ε) : List α → List β → List γ → List δ → List ε
  | a :: as, b :: bs, c :: cs, d :: ds => f a b c d :: zip4With f as bs cs ds
  | _, _, _, _ => []

/-- Pointwise zip of five lists, truncating to the shortest. -/
def zip5With (f : α → β → γ → δ → ε → ζ) :
    List α → List β → List γ → List δ → List ε → List ζ
  | a :: as, b :: bs, c :: cs, d :: ds, e :: es => f a b c d e :: zip5With f as bs cs ds es
  | _, _, _, _, _ => []

/-- Insert an element at position `n` of a list (appending when `n` is past the end). -/
def insertAt (a : α) : Nat → List α → List α
  | 0, l => a :: l
  | _ + 1, [] => [a]
  | n + 1, x :: xs => x :: insertAt a n xs

/-- Row-major flattening of a multi-index `ix` for a shape `ds`. -/
def flattenIdx : List Nat → List Nat → Nat
  | _ :: ds, i :: is => i * ds.prod + flattenIdx ds is
  | _, _ => 0

/-- Row-major unflattening of a flat offset `n` into a multi-index for shape `ds`. -/
def unflattenIdx : List Nat → Nat → List Nat
  | [], _ => []
  | _ :: ds, n => n / ds.prod :: unflattenIdx ds (n % ds.prod)

/-- All multi-indices of a shape, in row-major order. -/
def enumIndices : List Nat → List (List Nat)
  | [] => [[]]
  | d :: ds => (List.range d).flatMap fun i => (enumIndices ds).map (i :: ·)

/-- Pointwise maximum of two reversed shapes (for right-aligned broadcasting). -/
def bmax : List Nat → List Nat → List Nat
  | [], l => l
  | a :: as, [] => a :: as
  | a :: as, b :: bs => max a b :: bmax as bs

/-- Right-aligned numpy-style broadcast of two shapes. -/
def broadcastShapes (s1 s2 : List Nat) : List Nat :=
  (bmax s1.reverse s2.reverse).reverse

/-- Restrict a full broadcast index to an operand of shape `shape`: keep the
trailing axes and collapse size-1 axes to coordinate `0`. -/
def bcastIdx (shape ix : List Nat) : List Nat :=
  (ix.drop (ix.length - shape.length)).zipWith (fun i d => if d = 1 then 0 else i) shape

/-! ## The view algebra (`ShapeTracker`)

Modelled from the spec: the `ShapeTracker` class of `src/shape.ts` is not
among the published sources (only its callers in
`src/frontend/convolution.ts` and `src/backend/cpu.test.ts` are).  Per
§4.1 of the specification a view is "an addressing function from a
logical multi-index to a backing buffer offset (or out of bounds)", so a
view is embedded as its shape together with that addressing function.
Every movement operation returns a new immutable instance. -/

structure ShapeTracker where
  shape : List Nat
  index : List Nat → Option Nat

namespace ShapeTracker

/-- Modelled from the spec: the base identity view over a buffer of
`prod(shape)` elements, addressing in row-major order
(`ShapeTracker.fromShape` in the source). -/
def fromShape (s : List Nat) : ShapeTracker :=
  ⟨s, fun ix => some (flattenIdx s ix)⟩

/-- Modelled from the spec (§4.1): `reshape(newShape)` re-addresses the view
so that row-major order is preserved; the element count is assumed equal
(the source throws otherwise, and every `reshape` issued by the
convolution lowering preserves the count). -/
def reshape (st : ShapeTracker) (ns : List Nat) : ShapeTracker :=
  ⟨ns, fun ix => st.index (unflattenIdx st.shape (flattenIdx ns ix))⟩

/-- Shift an index into a padded view back into the inner view: `none` when
some coordinate falls in the padded region (using the inner extents `ds`). -/
def padAdjust : List Nat → List (Nat × Nat) → List Nat → Option (List Nat)
  | [], [], [] => some []
  | i :: ix, (lo, _) :: ps, d :: ds =>
      if lo ≤ i ∧ i < lo + d then (padAdjust ix ps ds).map ((i - lo) :: ·) else none
  | _, _, _ => none

/-- Modelled from the spec (§4.1): `pad(perAxisLowHigh)` extends each axis;
the padded region reads as out of bounds (fill value at read time). -/
def pad (st : ShapeTracker) (p : List (Nat × Nat)) : ShapeTracker :=
  ⟨st.shape.zipWith (fun d q => q.1 + d + q.2) p,
   fun ix => (padAdjust ix p st.shape).bind st.index⟩

/-- Modelled from the spec (§4.1): `shrink(perAxisLowHigh)` restricts each
axis to the sub-range `[lo, hi)` (the convention forced by the callers in
`pool`, which use `shrink([0, x])` to keep the first `x` elements). -/
def shrink (st : ShapeTracker) (p : List (Nat × Nat)) : ShapeTracker :=
  ⟨p.map (fun q => q.2 - q.1),
   fun ix => st.index (ix.zipWith (fun i q => i + q.1) p)⟩

/-- Modelled from the spec (§4.2): `repeat(factors)` tiles each axis
`factors[i]` times ("virtually repeating the axis before tiling"), so the
new extent is `factors[i] * shape[i]` and coordinate `j` reads the
underlying coordinate `j % shape[i]`. -/
def repeatAxes (st : ShapeTracker) (m : List Nat) : ShapeTracker :=
  ⟨m.zipWith (· * ·) st.shape,
   fun ix => st.index (ix.zipWith (fun i d => i % d) st.shape)⟩

/-- Modelled from the spec (§4.1): `permute(axisOrder)`; new axis `j` is old
axis `order[j]`. -/
def permute (st : ShapeTracker) (ord : List Nat) : ShapeTracker :=
  ⟨ord.map (fun a => st.shape.getD a 0),
   fun ix => st.index ((List.range st.shape.length).map
     (fun a => ix.getD (ord.indexOf a) 0))⟩

/-- Modelled from the spec (§4.1): `moveAxis(from, to)`, a specialization of
`permute`. -/
def moveaxis (st : ShapeTracker) (src dst : Nat) : ShapeTracker :=
  st.permute (insertAt src dst ((List.range st.shape.length).filter (· ≠ src)))

/-- Read the value a view addresses at `ix` out of `data`; the padded
(out-of-bounds) region reads as the fill value `0`.  The scalar type is
kept abstract so that concrete evaluations can run over `ℤ` and be
transported to `ℚ`. -/
def readAt [Zero α] (st : ShapeTracker) (data : List α) (ix : List Nat) : α :=
  match st.index ix with
  | some off => data.getD off 0
  | none => 0

end ShapeTracker

/-! ## Convolution validation (`src/frontend/convolution.ts`) -/

/-- Definition of a general dilated convolution (`ConvParams`).  Parameters
are JavaScript numbers; the integral ones are embedded as `Int` so that
the validator's sign checks are meaningful. -/
structure ConvParams where
  strides : List Int
  padding : List (Int × Int)
  lhsDilation : List Int
  rhsDilation : List Int

/-- `Math.ceil(a / b)` on integers for `b > 0`, via floor division. -/
def jsCeilDiv (a b : Int) : Int := -(Int.ediv (-a) b)

/-- The body of the per-spatial-dimension loop of `checkConvShape`
(`convolution.ts` lines 71–92): validates the parameters of one spatial
dimension and returns its output extent. -/
def convSpatialOut (x k : Nat) (s : Int) (pd : Int × Int) (ld rd : Int) :
    Except String Int :=
  if s ≤ 0 then .error "conv() strides must be a positive integer"
  else if pd.1 < 0 ∨ pd.2 < 0 then .error "conv() padding must be a 2-tuple of integers"
  else if ld ≤ 0 then .error "conv() lhsDilation must be a positive integer"
  else if rd ≤ 0 then .error "conv() rhsDilation must be a positive integer"
  else if k = 0 then .error "conv() kernel size must be positive"
  else
    let kernelSize : Int := ((k : Int) - 1) * rd + 1
    let inSize : Int := max (((x : Int) - 1) * ld + 1) 0 + pd.1 + pd.2
    if kernelSize > inSize then .error "conv() kernel size > input size"
    else .ok (jsCeilDiv (inSize - kernelSize + 1) s)

/-- The spatial loop of `checkConvShape`, iterating `convSpatialOut` over the
spatial extents of both operands and the per-dimension parameters (all six
lists have the same length when the loop is reached). -/
def convSpatialLoop : List Nat → List Nat → List Int → List (Int × Int) →
    List Int → List Int → Except String (List Int)
  | [], [], [], [], [], [] => .ok []
  | x :: xs, k :: ks, s :: ss, pd :: pds, ld :: lds, rd :: rds =>
      match convSpatialOut x k s pd ld rd with
      | .error e => .error e
      | .ok o =>
        match convSpatialLoop xs ks ss pds lds rds with
        | .error e => .error e
        | .ok rest => .ok (o :: rest)
  | _, _, _, _, _, _ => .error "conv() internal length mismatch"

/-- `checkConvShape(lhsShape, rhsShape, params)`: validates the operand
shapes and parameters of a convolution and, on success, returns the
output shape `[batch, outChannels, ...spatialOut]`. -/
def checkConvShape (lhs rhs : List Nat) (p : ConvParams) : Except String (List Int) :=
  if lhs.length ≠ rhs.length then
    .error "conv() requires inputs with the same number of dimensions"
  else if lhs.length < 2 then .error "conv() requires at least 2D inputs"
  else if p.strides.length ≠ lhs.length - 2 then .error "conv() strides != spatial dims"
  else if p.padding.length ≠ lhs.length - 2 then .error "conv() padding != spatial dims"
  else if p.lhsDilation.length ≠ lhs.length - 2 then
    .error "conv() lhsDilation != spatial dimensions"
  else if p.rhsDilation.length ≠ lhs.length - 2 then
    .error "conv() rhsDilation != spatial dimensions"
  else if lhs.getD 1 0 ≠ rhs.getD 1 0 then .error "conv() input channels differ"
  else
    match convSpatialLoop (lhs.drop 2) (rhs.drop 2)
        p.strides p.padding p.lhsDilation p.rhsDilation with
    | .error e => .error e
    | .ok spatial => .ok ((lhs.getD 0 0 : Int) :: (rhs.getD 0 0 : Int) :: spatial)

/-! ## The pooling transform (`pool`, `convolution.ts` lines 106–184) -/

/-- Per-axis output extent of `pool`: `Math.ceil((i - d*(k-1)) / s)`, in the
domain `d*(k-1) ≤ i` where the subtraction does not truncate. -/
def poolOutExtent (i d k s : Nat) : Nat := (i - d * (k - 1) + s - 1) / s

/-- Per-axis duplication factor of `pool` (`convolution.ts` lines 129–131):
`1 + Number(o*s > i - d*(k-1))`. -/
def poolDup (o s i d k : Nat) : Nat := 1 + (if o * s > i - d * (k - 1) then 1 else 0)

/-- `pool(st, ks, strides, dilation)`: reshapes the trailing `ks.length`
axes of `st` into output-position axes followed by kernel-window axes,
purely through `repeat`/`shrink`/`reshape`/`permute` composition
(`convolution.ts` lines 106–184).  The scalar-broadcast convenience of
the source (`strides`/`dilation` given as a single number) corresponds to
passing a replicated list here. -/
def pool (st : ShapeTracker) (ks strides dilation : List Nat) : ShapeTracker :=
  let m := ks.length
  let noop := st.shape.take (st.shape.length - m)
  let i_ := st.shape.drop (st.shape.length - m)
  let s_ := strides
  let d_ := dilation
  let o_ := zip4With (fun i d k s => poolOutExtent i d k s) i_ d_ ks s_
  let f_ := zip5With (fun o s i d k => poolDup o s i d k) o_ s_ i_ d_ ks
  let kidf := zip4With (fun k i d f => (k, i, d, f)) ks i_ d_ f_
  let st1 := st.repeatAxes (List.replicate noop.length 1 ++
    kidf.map (fun q => (q.1 * (q.2.1 * q.2.2.2 + q.2.2.1) + q.2.1 - 1) / q.2.1))
  let st2 := (st1.shrink (noop.map (fun x => (0, x)) ++
      kidf.map (fun q => (0, q.1 * (q.2.1 * q.2.2.2 + q.2.2.1))))).reshape
    (noop ++ kidf.flatMap (fun q => [q.1, q.2.1 * q.2.2.2 + q.2.2.1]))
  let kos := zip3With (fun k o s => (k, o, s)) ks o_ s_
  let st3 := (st2.shrink (noop.map (fun x => (0, x)) ++
      kos.flatMap (fun q => [(0, q.1), (0, q.2.1 * q.2.2)]))).reshape
    (noop ++ kos.flatMap (fun q => [q.1, q.2.1, q.2.2]))
  let st4 := (st3.shrink (noop.map (fun x => (0, x)) ++
      kos.flatMap (fun q => [(0, q.1), (0, q.2.1), (0, 1)]))).reshape
    (noop ++ kos.flatMap (fun q => [q.1, q.2.1]))
  st4.permute (List.range noop.length ++
    (List.range m).map (fun j => noop.length + 2 * j + 1) ++
    (List.range m).map (fun j => noop.length + 2 * j))

/-! ## Dilation transform and convolution preparation -/

/-- `applyDilation(st, dilation)` (`convolution.ts` lines 187–208): spaces
the elements of each trailing spatial axis `dilation[i]` apart by padding
a synthetic size-1 axis; identity when every dilation equals 1.  Inputs
of rank below 2 are outside the function's domain (the source would
destructure `undefined` axes). -/
def applyDilation (st : ShapeTracker) (dilation : List Nat) : ShapeTracker :=
  if dilation.all (· = 1) then st
  else
    match st.shape with
    | a :: b :: k_ =>
      let st1 := st.reshape (a :: b :: k_.flatMap (fun k => [k, 1]))
      let st2 := st1.pad ((0, 0) :: (0, 0) ::
        dilation.flatMap (fun s => [(0, 0), (0, s - 1)]))
      let st3 := st2.reshape (a :: b :: k_.zipWith (· * ·) dilation)
      st3.shrink ((0, a) :: (0, b) ::
        k_.zipWith (fun k s => (0, (k - 1) * s + 1)) dilation)
    | _ => st

/-- Clamp validated integer parameters to `Nat` (valid parameters are
non-negative, so this is the identity on the checked domain). -/
def natParams (l : List Int) : List Nat := l.map Int.toNat

/-- `prepareConv(stX, stY, params)` (`convolution.ts` lines 216–243):
produces the two views whose broadcast-multiply followed by a
sum-reduction over the final axis computes the convolution.  The
`reshape` argument list of the source reads `stX.shape` before the
`moveaxis` result is assigned back, which is mirrored by `sh` below. -/
def prepareConv (stX stY : ShapeTracker) (p : ConvParams) :
    ShapeTracker × ShapeTracker :=
  let n := stX.shape.length - 2
  let stX1 := applyDilation stX (natParams p.lhsDilation)
  let ks := stY.shape.drop 2
  let stX2 := stX1.pad ((0, 0) :: (0, 0) ::
    p.padding.map (fun q => (q.1.toNat, q.2.toNat)))
  let stX3 := pool stX2 ks (natParams p.strides) (natParams p.rhsDilation)
  let sh := stX3.shape
  let stX4 := (stX3.moveaxis 1 (n + 1)).reshape
    (sh.getD 0 0 :: 1 :: ((sh.drop 2).take n ++ [sh.getD 1 0 * ks.prod]))
  let stY1 := stY.reshape
    (stY.shape.getD 0 0 :: (List.replicate n 1 ++ [stY.shape.getD 1 0 * ks.prod]))
  (stX4, stY1)

/-- The caller's side of the convolution contract (§4.4): broadcast-multiply
the two prepared views and sum-reduce over the final axis, returning the
output values flattened in row-major order. -/
def broadcastMulReduce [NonUnitalNonAssocSemiring α] (stX stY : ShapeTracker)
    (xData yData : List α) : List α :=
  let shp := broadcastShapes stX.shape stY.shape
  let lead := shp.dropLast
  let red := shp.getLastD 1
  (enumIndices lead).map fun ix =>
    ((List.range red).map fun r =>
      stX.readAt xData (bcastIdx stX.shape (ix ++ [r])) *
      stY.readAt yData (bcastIdx stY.shape (ix ++ [r]))).sum

/-- A full convolution with explicit parameters: prepare the two views from
the operands' identity views, then broadcast-multiply-reduce. -/
def convCompute [NonUnitalNonAssocSemiring α] (xData yData : List α)
    (xShape yShape : List Nat) (p : ConvParams) : List α :=
  broadcastMulReduce (prepareConv (.fromShape xShape) (.fromShape yShape) p).1
    (prepareConv (.fromShape xShape) (.fromShape yShape) p).2 xData yData

/-- The all-default parameter record for `n` spatial dimensions: unit
strides, zero padding, unit dilations. -/
def defaultConvParams (n : Nat) : ConvParams :=
  ⟨List.replicate n 1, List.replicate n (0, 0),
   List.replicate n 1, List.replicate n 1⟩

/-- Modelled from the spec: `conv` of `src/frontend/core.ts` is not among
the published sources.  Per the convolution scenario of §8 and the
comment in `src/lax.ts` ("XXX: Pass down padding and the other
parameters"), it runs the lowering of §4.4 with all-default parameters. -/
def conv [NonUnitalNonAssocSemiring α] (xData yData : List α)
    (xShape yShape : List Nat) : List α :=
  convCompute xData yData xShape yShape (defaultConvParams (xShape.length - 2))

/-- `lax.convGeneralDilated(lhs, rhs)` (`src/lax.ts` lines 9–12): forwards
its two operands to `conv` and nothing else. -/
def convGeneralDilated [NonUnitalNonAssocSemiring α] (xData yData : List α)
    (xShape yShape : List Nat) : List α :=
  conv xData yData xShape yShape

/-! ## Backend buffer lifetime (§4.5, §7)

Modelled from the spec: the backend implementations (`src/backend/*.ts`
other than the test file) are not among the published sources.  Per §3
and the design note of §9, buffer handles are indices into a per-backend
table of reference-counted buffers; `malloc` appends a fresh entry with
count 1, `decRef` decrements and releases at zero, and any `read` of, or
`execute` over, a handle whose count has reached zero is rejected with a
lifetime error.  Expression evaluation is abstracted as a pure function
of the input buffers, which is all the lifetime discipline observes. -/

/-- Errors of the backend contract relevant to buffer lifetime. -/
inductive BufErr where
  | lifetime
  deriving DecidableEq

/-- Modelled from the spec: a backend's buffer table; each entry is a
reference count paired with the buffer contents. -/
structure BackendState where
  bufs : List (Nat × List ℚ)

/-- Table lookup of a handle; absent handles read as released entries. -/
def getBuf (s : BackendState) (h : Nat) : Nat × List ℚ := s.bufs.getD h (0, [])

/-- Overwrite the entry of a handle (no-op for absent handles). -/
def setBuf (s : BackendState) (h : Nat) (v : Nat × List ℚ) : BackendState :=
  ⟨s.bufs.set h v⟩

/-- A handle whose reference count has reached zero (or that was never
allocated): invalid for all further operations. -/
def bufFreed (s : BackendState) (h : Nat) : Prop := (getBuf s h).1 = 0

instance (s : BackendState) (h : Nat) : Decidable (bufFreed s h) :=
  inferInstanceAs (Decidable (_ = 0))

/-- Modelled from the spec: `read(handle)` returns the buffer's contents and
fails with a lifetime error if the handle's refcount is already zero. -/
def readBuf (s : BackendState) (h : Nat) : Except BufErr (List ℚ) :=
  if (getBuf s h).1 = 0 then .error .lifetime else .ok (getBuf s h).2

/-- Modelled from the spec: `execute(expression, inputs, outputs)` with the
expression abstracted as a pure function `f` of the input buffers and a
single output handle; every operand handle (input or output) must be
live, else the call fails with a lifetime error before any write. -/
def executeBuf (s : BackendState) (f : List (List ℚ) → List ℚ)
    (ins : List Nat) (out : Nat) : Except BufErr BackendState :=
  if (ins ++ [out]).all (fun h => 0 < (getBuf s h).1) then
    .ok (setBuf s out ((getBuf s out).1, f (ins.map (fun h => (getBuf s h).2))))
  else .error .lifetime

/-- The operations a caller can issue against a backend after some point in
time (reads are stateless and therefore omitted from the trace). -/
inductive BufOp where
  | malloc (data : List ℚ)
  | incRef (h : Nat)
  | decRef (h : Nat)
  | execute (f : List (List ℚ) → List ℚ) (ins : List Nat) (out : Nat)

/-- Modelled from the spec: the state transition of each backend operation.
`malloc` appends a fresh entry at refcount 1 (handles are arena indices,
never reused); `incRef`/`decRef` on a released handle are rejected and
leave the state unchanged, as does a failing `execute`. -/
def stepOp (s : BackendState) : BufOp → BackendState
  | .malloc d => ⟨s.bufs ++ [(1, d)]⟩
  | .incRef h =>
      if (getBuf s h).1 = 0 then s
      else setBuf s h ((getBuf s h).1 + 1, (getBuf s h).2)
  | .decRef h =>
      if (getBuf s h).1 = 0 then s
      else if (getBuf s h).1 = 1 then setBuf s h (0, [])
      else setBuf s h ((getBuf s h).1 - 1, (getBuf s h).2)
  | .execute f ins out =>
      match executeBuf s f ins out with
      | .ok s' => s'
      | .error _ => s

/-- Run a trace of backend operations. -/
def runOps (s : BackendState) (ops : List BufOp) : BackendState :=
  ops.foldl stepOp s

/-! ## Transport lemmas for concrete evaluation

The buffer pipeline is scalar-polymorphic; these lemmas transport a
computation over `ℤ` (which the kernel can evaluate) to `ℚ`. -/

theorem readAt_map_ringHom {α β : Type} [NonAssocSemiring α] [NonAssocSemiring β]
    (φ : α →+* β) (st : ShapeTracker) (data : List α) (ix : List Nat) :
    st.readAt (data.map φ) ix = φ (st.readAt data ix) := by
  unfold ShapeTracker.readAt
  cases st.index ix with
  | none => simp
  | some off =>
    simp only
    rw [List.getD_eq_getElem?_getD, List.getD_eq_getElem?_getD, List.getElem?_map]
    cases data[off]? <;> simp

theorem readAt_map_mul_left {α : Type} [MulZeroClass α]
    (c : α) (st : ShapeTracker) (data : List α) (ix : List Nat) :
    st.readAt (data.map (c * ·)) ix = c * st.readAt data ix := by
  unfold ShapeTracker.readAt
  cases st.index ix with
  | none => simp
  | some off =>
    simp only
    rw [List.getD_eq_getElem?_getD, List.getD_eq_getElem?_getD, List.getElem?_map]
    cases data[off]? <;> simp

theorem broadcastMulReduce_map_ringHom {α β : Type} [NonAssocSemiring α]
    [NonAssocSemiring β] (φ : α →+* β) (stX stY : ShapeTracker) (xs ys : List α) :
    broadcastMulReduce stX stY (xs.map φ) (ys.map φ)
      = (broadcastMulReduce stX stY xs ys).map φ := by
  unfold broadcastMulReduce
  rw [List.map_map]
  refine List.map_congr_left fun ix _ => ?_
  show _ = φ (List.sum _)
  rw [map_list_sum, List.map_map]
  refine congrArg List.sum (List.map_congr_left fun r _ => ?_)
  simp [readAt_map_ringHom]

theorem broadcastMulReduce_map_mul_left {α : Type} [CommSemiring α]
    (c : α) (stX stY : ShapeTracker) (xs ys : List α) :
    broadcastMulReduce stX stY xs (ys.map (c * ·))
      = (broadcastMulReduce stX stY xs ys).map (c * ·) := by
  unfold broadcastMulReduce
  rw [List.map_map]
  refine List.map_congr_left fun ix _ => ?_
  show _ = c * (List.sum _)
  rw [← List.sum_map_mul_left]
  refine congrArg List.sum (List.map_congr_left fun r _ => ?_)
  rw [readAt_map_mul_left]
  ring

/-! ## Claim theorems -/

/-- **C1**: For the 1-D convolution with input `[[[1,2,3,4,5]]]` and kernel
`[[[2,0.5,-1]]]` under default parameters (all strides 1, all paddings
`[0,0]`, all dilations 1), the convolution built from `prepareConv`'s two
views by broadcast-multiply then sum-reduction over the final axis
produces exactly `[[[0, 1.5, 3]]]` (row-major value list `[0, 3/2, 3]`),
the direct sliding-dot-product result. -/
theorem conv1d_default_result :
    convGeneralDilated ([1, 2, 3, 4, 5] : List ℚ) [2, 1/2, -1] [1, 1, 5] [1, 1, 3]
      = [0, 3/2, 3] := by
  have hz : convGeneralDilated ([1, 2, 3, 4, 5] : List ℤ) [4, 1, -2] [1, 1, 5] [1, 1, 3]
      = [0, 3, 6] := by decide
  simp only [convGeneralDilated, conv, convCompute] at hz ⊢
  have h1 : ([2, 1/2, -1] : List ℚ) = ([4, 1, -2] : List ℚ).map ((1/2 : ℚ) * ·) := by
    norm_num
  have h2 : ([4, 1, -2] : List ℚ) = ([4, 1, -2] : List ℤ).map (Int.castRingHom ℚ) := by
    norm_num
  have h3 : ([1, 2, 3, 4, 5] : List ℚ)
      = ([1, 2, 3, 4, 5] : List ℤ).map (Int.castRingHom ℚ) := by
    norm_num
  rw [h1, h2, h3, broadcastMulReduce_map_mul_left, broadcastMulReduce_map_ringHom, hz]
  norm_num

/-- **C5**: In the pooling transform, the per-axis duplication factor `f` is
always an element of `{1, 2}`, and `f = 2` exactly when
`o*s > i - d*(k-1)` (with `o` the output extent, `s` the stride, `i` the
input extent, `d` the dilation, `k` the kernel size for that axis);
otherwise `f = 1`.  Stated on the non-degenerate domain `1 ≤ k`,
`d*(k-1) ≤ i` where the `Nat` subtraction of the embedding agrees with
the source's arithmetic. -/
theorem poolDup_in_one_two_iff (i d k s : Nat) (hk : 1 ≤ k) (hdom : d * (k - 1) ≤ i) :
    (poolDup (poolOutExtent i d k s) s i d k = 1 ∨
     poolDup (poolOutExtent i d k s) s i d k = 2) ∧
    (poolDup (poolOutExtent i d k s) s i d k = 2 ↔
      (poolOutExtent i d k s : ℤ) * s > (i : ℤ) - d * ((k : ℤ) - 1)) := by
  have key : poolOutExtent i d k s * s > i - d * (k - 1) ↔
      (poolOutExtent i d k s : ℤ) * s > (i : ℤ) - d * ((k : ℤ) - 1) := by
    zify [hdom, hk]
  unfold poolDup
  split_ifs with h
  · exact ⟨Or.inr rfl, by simpa using key.mp h⟩
  · refine ⟨Or.inl rfl, ?_⟩
    constructor
    · intro hcon; omega
    · intro hcon; exact absurd (key.mpr hcon) h

/-- Witness for `poolDup_in_one_two_iff` at the 1-D convolution scenario's
axis (`i = 5`, `d = 1`, `k = 3`, `s = 1`). -/
theorem poolDup_in_one_two_iff_witness :
    (poolDup (poolOutExtent 5 1 3 1) 1 5 1 3 = 1 ∨
     poolDup (poolOutExtent 5 1 3 1) 1 5 1 3 = 2) ∧
    (poolDup (poolOutExtent 5 1 3 1) 1 5 1 3 = 2 ↔
      (poolOutExtent 5 1 3 1 : ℤ) * 1 > (5 : ℤ) - 1 * ((3 : ℤ) - 1)) :=
  poolDup_in_one_two_iff 5 1 3 1 (by decide) (by decide)

/-! ### C7: pad/shrink round-trip -/

/-- An index lies within a shape (same rank, every coordinate in range). -/
def inShapeB : List Nat → List Nat → Bool
  | [], [] => true
  | i :: ix, d :: ds => decide (i < d) && inShapeB ix ds
  | _, _ => false

/-- The `shrink` ranges that undo `pad(st, p)`: per axis the sub-range
`[lo, lo + d)` covering the original extent `d`. -/
def padInvRanges (p : List (Nat × Nat)) (shape : List Nat) : List (Nat × Nat) :=
  p.zipWith (fun q d => (q.1, q.1 + d)) shape

theorem padInvRanges_cons (q : Nat × Nat) (p : List (Nat × Nat)) (d : Nat) (ds : List Nat) :
    padInvRanges (q :: p) (d :: ds) = (q.1, q.1 + d) :: padInvRanges p ds := rfl

theorem padAdjust_shift (ix : List Nat) (p : List (Nat × Nat)) (ds : List Nat)
    (hlen : p.length = ds.length) (hb : inShapeB ix ds = true) :
    ShapeTracker.padAdjust (ix.zipWith (fun i q => i + q.1) (padInvRanges p ds)) p ds
      = some ix := by
  induction ix generalizing p ds with
  | nil =>
    cases ds with
    | nil =>
      cases p with
      | nil => rfl
      | cons q p' => simp at hlen
    | cons d ds' => simp [inShapeB] at hb
  | cons i ix' IH =>
    cases ds with
    | nil => simp [inShapeB] at hb
    | cons d ds' =>
      cases p with
      | nil => simp at hlen
      | cons q p' =>
        simp only [inShapeB, Bool.and_eq_true, decide_eq_true_eq] at hb
        rw [padInvRanges_cons, List.zipWith_cons_cons]
        show ShapeTracker.padAdjust _ (q :: p') (d :: ds') = _
        simp only [ShapeTracker.padAdjust]
        rw [if_pos ⟨Nat.le_add_left _ _, by omega⟩]
        rw [IH p' ds' (by simpa using hlen) hb.2]
        simp

/-- **C7, counterexample**: with the source's `shrink` convention (sub-range
`[lo, hi)` per axis, the convention forced by the calls in `pool`),
`shrink(pad(st, p), p)` is *not* the identity view: for `st` the identity
view over shape `[2]` and the non-negative pad amounts `p = [(1, 2)]`,
the round-trip has shape `[1]`, not `[2]`. -/
theorem pad_shrink_claim_counterexample :
    ¬ ((((ShapeTracker.fromShape [2]).pad [(1, 2)]).shrink [(1, 2)]).shape
        = (ShapeTracker.fromShape [2]).shape) := by decide

/-- **C7, amended**: for every view `st` and per-axis pad amounts `p` (one
pair per axis), shrinking `pad(st, p)` by the sub-ranges
`[lo, lo + d)` that cover each original extent (`padInvRanges`) yields
the identity view over `st`'s original shape: same shape, and the same
backing offset (or out-of-bounds result) at every in-range logical
index. -/
theorem pad_shrink_inverse (st : ShapeTracker) (p : List (Nat × Nat))
    (hlen : p.length = st.shape.length) :
    ((st.pad p).shrink (padInvRanges p st.shape)).shape = st.shape ∧
    ∀ ix, inShapeB ix st.shape = true →
      ((st.pad p).shrink (padInvRanges p st.shape)).index ix = st.index ix := by
  constructor
  · show (padInvRanges p st.shape).map (fun q => q.2 - q.1) = st.shape
    have : ∀ (q : List (Nat × Nat)) (ds : List Nat),
        (padInvRanges q ds).map (fun r => r.2 - r.1) = ds.take q.length := by
      intro q
      induction q with
      | nil => intro ds; simp [padInvRanges]
      | cons a q' IH =>
        intro ds
        cases ds with
        | nil => simp [padInvRanges]
        | cons d ds' =>
          simp only [padInvRanges, List.zipWith_cons_cons, List.map_cons, List.take]
          rw [show a.1 + d - a.1 = d by omega]
          exact congrArg (d :: ·) (IH ds')
    rw [this, hlen, List.take_length]
  · intro ix hb
    show ((st.pad p).index (ix.zipWith (fun i q => i + q.1) (padInvRanges p st.shape))) = _
    show (ShapeTracker.padAdjust _ p st.shape).bind st.index = _
    rw [padAdjust_shift ix p st.shape hlen hb]
    rfl

/-- Witness for `pad_shrink_inverse` at `st = fromShape [2, 3]`,
`p = [(1, 2), (0, 1)]`, logical index `[1, 2]`. -/
theorem pad_shrink_inverse_witness :
    (((ShapeTracker.fromShape [2, 3]).pad [(1, 2), (0, 1)]).shrink
        (padInvRanges [(1, 2), (0, 1)] (ShapeTracker.fromShape [2, 3]).shape)).shape
      = (ShapeTracker.fromShape [2, 3]).shape ∧
    (((ShapeTracker.fromShape [2, 3]).pad [(1, 2), (0, 1)]).shrink
        (padInvRanges [(1, 2), (0, 1)] (ShapeTracker.fromShape [2, 3]).shape)).index [1, 2]
      = (ShapeTracker.fromShape [2, 3]).index [1, 2] :=
  ⟨(pad_shrink_inverse (ShapeTracker.fromShape [2, 3]) [(1, 2), (0, 1)] (by decide)).1,
   (pad_shrink_inverse (ShapeTracker.fromShape [2, 3]) [(1, 2), (0, 1)] (by decide)).2
     [1, 2] (by decide)⟩


/-- **C9** (implicit): the public `convGeneralDilated(lhs, rhs)` entry point
accepts no convolution parameters and always performs the default
convolution: it forwards to `conv`, which runs the general lowering with
unit strides, zero padding, and unit lhs/rhs dilation; no strides,
padding, or dilation can be requested through this public interface. -/
theorem convGeneralDilated_defaults {α : Type} [NonUnitalNonAssocSemiring α]
    (xData yData : List α) (xShape yShape : List Nat) :
    convGeneralDilated xData yData xShape yShape
      = convCompute xData yData xShape yShape (defaultConvParams (xShape.length - 2)) ∧
    (defaultConvParams (xShape.length - 2)).strides
      = List.replicate (xShape.length - 2) 1 ∧
    (defaultConvParams (xShape.length - 2)).padding
      = List.replicate (xShape.length - 2) (0, 0) ∧
    (defaultConvParams (xShape.length - 2)).lhsDilation
      = List.replicate (xShape.length - 2) 1 ∧
    (defaultConvParams (xShape.length - 2)).rhsDilation
      = List.replicate (xShape.length - 2) 1 :=
  ⟨rfl, rfl, rfl, rfl, rfl⟩

theorem bufFreed_step (s : BackendState) (h : Nat) (op : BufOp)
    (hlt : h < s.bufs.length) (hf : bufFreed s h) :
    h < (stepOp s op).bufs.length ∧ bufFreed (stepOp s op) h := by
  unfold bufFreed at *
  cases op with
  | malloc d =>
    refine ⟨by simp [stepOp]; omega, ?_⟩
    show ((⟨s.bufs ++ [(1, d)]⟩ : BackendState).bufs.getD h (0, [])).1 = 0
    rw [show (⟨s.bufs ++ [(1, d)]⟩ : BackendState).bufs = s.bufs ++ [(1, d)] from rfl]
    rw [List.getD_append _ _ _ _ hlt]
    exact hf
  | incRef h' =>
    by_cases hz : (getBuf s h').1 = 0
    · simp only [stepOp, if_pos hz]; exact ⟨hlt, hf⟩
    · simp only [stepOp, if_neg hz]
      have hne : h' ≠ h := fun he => hz (he ▸ hf)
      refine ⟨by simp only [setBuf, List.length_set]; exact hlt, ?_⟩
      show ((s.bufs.set h' _).getD h (0, [])).1 = 0
      rw [List.getD_eq_getElem?_getD, List.getElem?_set_ne hne]
      rw [← List.getD_eq_getElem?_getD]
      exact hf
  | decRef h' =>
    by_cases hz : (getBuf s h').1 = 0
    · simp only [stepOp, if_pos hz]; exact ⟨hlt, hf⟩
    · have hne : h' ≠ h := fun he => hz (he ▸ hf)
      by_cases h1 : (getBuf s h').1 = 1
      · simp only [stepOp, if_neg hz, if_pos h1]
        refine ⟨by simp only [setBuf, List.length_set]; exact hlt, ?_⟩
        show ((s.bufs.set h' _).getD h (0, [])).1 = 0
        rw [List.getD_eq_getElem?_getD, List.getElem?_set_ne hne,
          ← List.getD_eq_getElem?_getD]
        exact hf
      · simp only [stepOp, if_neg hz, if_neg h1]
        refine ⟨by simp only [setBuf, List.length_set]; exact hlt, ?_⟩
        show ((s.bufs.set h' _).getD h (0, [])).1 = 0
        rw [List.getD_eq_getElem?_getD, List.getElem?_set_ne hne,
          ← List.getD_eq_getElem?_getD]
        exact hf
  | execute f ins out =>
    by_cases hc : ((ins ++ [out]).all (fun x => 0 < (getBuf s x).1) = true)
    · have hne : out ≠ h := by
        intro he
        have := (List.all_eq_true.mp hc) out (by simp)
        rw [he] at this
        simp [hf] at this
      simp only [stepOp, executeBuf, if_pos hc]
      refine ⟨by simp only [setBuf, List.length_set]; exact hlt, ?_⟩
      show ((s.bufs.set out _).getD h (0, [])).1 = 0
      rw [List.getD_eq_getElem?_getD, List.getElem?_set_ne hne,
        ← List.getD_eq_getElem?_getD]
      exact hf
    · simp only [stepOp, executeBuf, if_neg hc]
      exact ⟨hlt, hf⟩

theorem bufFreed_runOps (s : BackendState) (h : Nat) (ops : List BufOp)
    (hlt : h < s.bufs.length) (hf : bufFreed s h) :
    h < (runOps s ops).bufs.length ∧ bufFreed (runOps s ops) h := by
  induction ops generalizing s with
  | nil => exact ⟨hlt, hf⟩
  | cons op ops' IH =>
    obtain ⟨h1, h2⟩ := bufFreed_step s h op hlt hf
    exact IH (stepOp s op) h1 h2

/-- **C8**: once `decRef` has brought a handle's reference count to zero,
every subsequent `read` of that handle, and every subsequent `execute`
that uses it as an operand (input or output), fails with a lifetime
error — deterministically, after any further trace of backend
operations, and without touching freed memory. -/
theorem freed_handle_always_rejected (s : BackendState) (h : Nat)
    (hlt : h < s.bufs.length) (hf : bufFreed s h) (ops : List BufOp) :
    readBuf (runOps s ops) h = .error .lifetime ∧
    ∀ (f : List (List ℚ) → List ℚ) (ins : List Nat) (out : Nat),
      h ∈ ins ++ [out] →
      executeBuf (runOps s ops) f ins out = .error .lifetime := by
  obtain ⟨-, hf'⟩ := bufFreed_runOps s h ops hlt hf
  simp only [bufFreed] at hf'
  constructor
  · unfold readBuf
    rw [if_pos hf']
  · intro f ins out hmem
    unfold executeBuf
    rw [if_neg ?_]
    intro hall
    have := (List.all_eq_true.mp hall) h hmem
    simp [hf'] at this

/-- A two-operation demonstration state: one buffer allocated and then
released by `decRef`. -/
def demoState : BackendState := stepOp (stepOp ⟨[]⟩ (.malloc [1, 2])) (.decRef 0)

/-- Witness for `freed_handle_always_rejected`: after `malloc` + `decRef`
drop handle 0 to refcount zero, both `read` and `execute` on it fail with
a lifetime error even after a further `malloc`. -/
theorem freed_handle_always_rejected_witness :
    readBuf (runOps demoState [.malloc [5]]) 0 = .error .lifetime ∧
    executeBuf (runOps demoState [.malloc [5]]) (fun _ => []) [0] 1 = .error .lifetime :=
  ⟨(freed_handle_always_rejected demoState 0 (by decide) (by decide) [.malloc [5]]).1,
   (freed_handle_always_rejected demoState 0 (by decide) (by decide) [.malloc [5]]).2
     (fun _ => []) [0] 1 (by decide)⟩


/-- The dilation transform exactly as §4.3 of the specification words it,
for an operand of shape `a :: b :: k_`: append a synthetic axis of size 1
after each trailing spatial axis, pad each synthetic axis to width `s`
(spacing elements `s` apart), collapse each pair back into one axis of
size `k*s`, then shrink to the exact dilated extent `(k-1)*s+1`, keeping
the two leading axes. -/
def dilationRecipe (st : ShapeTracker) (dilation : List Nat) (a b : Nat)
    (k_ : List Nat) : ShapeTracker :=
  (((st.reshape (a :: b :: k_.flatMap fun k => [k, 1])).pad
      ((0, 0) :: (0, 0) :: dilation.flatMap fun s => [(0, 0), (0, s - 1)])).reshape
      (a :: b :: k_.zipWith (· * ·) dilation)).shrink
      ((0, a) :: (0, b) :: k_.zipWith (fun k s => (0, (k - 1) * s + 1)) dilation)

/-- **C6**: `applyDilation(st, dilation)` is the identity (returns `st`
itself) when every dilation entry equals 1; otherwise, for an operand of
shape `a :: b :: k_`, it performs exactly the spec's recipe — append a
synthetic size-1 axis after each trailing spatial axis, pad it to width
`s`, collapse the pair into one axis of size `k*s`, and shrink to extent
`(k-1)*s+1` — leaving the two leading (batch and channel) axes
unchanged, so the result's shape is `a :: b :: map ((k-1)*s+1)`. -/
theorem applyDilation_spec (st : ShapeTracker) (dilation : List Nat) (a b : Nat)
    (k_ : List Nat) (hshape : st.shape = a :: b :: k_)
    (_hlen : dilation.length = k_.length) :
    (dilation.all (· = 1) = true → applyDilation st dilation = st) ∧
    (¬ dilation.all (· = 1) = true →
      applyDilation st dilation = dilationRecipe st dilation a b k_ ∧
      (applyDilation st dilation).shape
        = a :: b :: k_.zipWith (fun k s => (k - 1) * s + 1) dilation) := by
  constructor
  · intro h1
    unfold applyDilation
    rw [if_pos h1]
  · intro h1
    have heq : applyDilation st dilation = dilationRecipe st dilation a b k_ := by
      unfold applyDilation
      rw [if_neg h1, hshape]
      rfl
    refine ⟨heq, ?_⟩
    rw [heq]
    show ((0, a) :: (0, b) ::
      k_.zipWith (fun k s => (0, (k - 1) * s + 1)) dilation).map (fun q => q.2 - q.1)
      = _
    simp [List.map_zipWith]

/-- Witness for `applyDilation_spec` at the identity view over `[1, 1, 3]`
with dilation `[2]`. -/
theorem applyDilation_spec_witness :
    (applyDilation (ShapeTracker.fromShape [1, 1, 3]) [2]
        = dilationRecipe (ShapeTracker.fromShape [1, 1, 3]) [2] 1 1 [3]) ∧
    (applyDilation (ShapeTracker.fromShape [1, 1, 3]) [2]).shape = [1, 1, 5] := by
  have h := (applyDilation_spec (ShapeTracker.fromShape [1, 1, 3]) [2] 1 1 [3]
    rfl rfl).2 (by decide)
  exact ⟨h.1, by rw [h.2]; rfl⟩


theorem map_range_getD_append (l t : List Nat) :
    (List.range l.length).map (fun a => (l ++ t).getD a 0) = l := by
  induction l with
  | nil => simp
  | cons x l' IH =>
    rw [List.length_cons, List.range_succ_eq_map, List.map_cons, List.map_map]
    show (x :: (l' ++ t)).getD 0 0 :: _ = _
    refine congrArg (x :: ·) ((List.map_congr_left fun a _ => ?_).trans IH)
    show (x :: (l' ++ t)).getD (a + 1) 0 = (l' ++ t).getD a 0
    simp [List.getD]

theorem map_range_getD_flatMap_pair_fst (L : List α) (f g : α → Nat) :
    (List.range L.length).map
      (fun j => (L.flatMap fun p => [f p, g p]).getD (2 * j) 0) = L.map f := by
  induction L with
  | nil => simp
  | cons p L' IH =>
    rw [List.length_cons, List.range_succ_eq_map, List.map_cons, List.map_map,
      List.map_cons]
    show (f p :: g p :: _).getD 0 0 :: _ = _
    refine congrArg (f p :: ·) ((List.map_congr_left fun j _ => ?_).trans IH)
    show (f p :: g p :: L'.flatMap fun q => [f q, g q]).getD (2 * (j + 1)) 0 = _
    rw [show 2 * (j + 1) = 2 * j + 1 + 1 by omega]
    simp [List.getD]

theorem map_range_getD_flatMap_pair_snd (L : List α) (f g : α → Nat) :
    (List.range L.length).map
      (fun j => (L.flatMap fun p => [f p, g p]).getD (2 * j + 1) 0) = L.map g := by
  induction L with
  | nil => simp
  | cons p L' IH =>
    rw [List.length_cons, List.range_succ_eq_map, List.map_cons, List.map_map,
      List.map_cons]
    show (f p :: g p :: _).getD 1 0 :: _ = _
    refine congrArg (g p :: ·) ((List.map_congr_left fun j _ => ?_).trans IH)
    show (f p :: g p :: L'.flatMap fun q => [f q, g q]).getD (2 * (j + 1) + 1) 0 = _
    rw [show 2 * (j + 1) + 1 = 2 * j + 1 + 1 + 1 by omega]
    simp [List.getD]

theorem zip3With_length_eq {α β γ δ : Type} (f : α → β → γ → δ)
    (as : List α) (bs : List β) (cs : List γ)
    (h1 : bs.length = as.length) (h2 : cs.length = as.length) :
    (zip3With f as bs cs).length = as.length := by
  induction as generalizing bs cs with
  | nil =>
    cases bs <;> cases cs <;> simp [zip3With]
  | cons a as' IH =>
    cases bs with
    | nil => simp at h1
    | cons b bs' =>
      cases cs with
      | nil => simp at h2
      | cons c cs' =>
        simp only [zip3With, List.length_cons]
        rw [IH bs' cs' (by simpa using h1) (by simpa using h2)]

theorem zip4With_length_eq {α β γ δ ε : Type} (f : α → β → γ → δ → ε)
    (as : List α) (bs : List β) (cs : List γ) (ds : List δ)
    (h1 : bs.length = as.length) (h2 : cs.length = as.length)
    (h3 : ds.length = as.length) :
    (zip4With f as bs cs ds).length = as.length := by
  induction as generalizing bs cs ds with
  | nil => cases bs <;> cases cs <;> cases ds <;> simp [zip4With]
  | cons a as' IH =>
    cases bs with
    | nil => simp at h1
    | cons b bs' =>
      cases cs with
      | nil => simp at h2
      | cons c cs' =>
        cases ds with
        | nil => simp at h3
        | cons d ds' =>
          simp only [zip4With, List.length_cons]
          rw [IH bs' cs' ds' (by simpa using h1) (by simpa using h2) (by simpa using h3)]

theorem zip3With_map_fst {α β γ : Type} (as : List α) (bs : List β) (cs : List γ)
    (h1 : bs.length = as.length) (h2 : cs.length = as.length) :
    (zip3With (fun a b c => (a, b, c)) as bs cs).map (fun q => q.1) = as := by
  induction as generalizing bs cs with
  | nil => cases bs <;> cases cs <;> simp [zip3With]
  | cons a as' IH =>
    cases bs with
    | nil => simp at h1
    | cons b bs' =>
      cases cs with
      | nil => simp at h2
      | cons c cs' =>
        simp only [zip3With, List.map_cons]
        rw [IH bs' cs' (by simpa using h1) (by simpa using h2)]

theorem zip3With_map_snd {α β γ : Type} (as : List α) (bs : List β) (cs : List γ)
    (h1 : bs.length = as.length) (h2 : cs.length = as.length) :
    (zip3With (fun a b c => (a, b, c)) as bs cs).map (fun q => q.2.1) = bs := by
  induction as generalizing bs cs with
  | nil => cases bs <;> cases cs <;> simp_all [zip3With]
  | cons a as' IH =>
    cases bs with
    | nil => simp at h1
    | cons b bs' =>
      cases cs with
      | nil => simp at h2
      | cons c cs' =>
        simp only [zip3With, List.map_cons]
        rw [IH bs' cs' (by simpa using h1) (by simpa using h2)]



theorem natCeilDiv_cast_eq_ceil (C s : Nat) (hs : 1 ≤ s) :
    (((C + s - 1) / s : Nat) : ℤ) = ⌈(C : ℚ) / (s : ℚ)⌉ := by
  have h0 : 0 < s := hs
  have hspec := Nat.div_add_mod (C + s - 1) s
  have hrlt : (C + s - 1) % s < s := Nat.mod_lt _ h0
  have hb : C ≤ s * ((C + s - 1) / s) ∧ s * ((C + s - 1) / s) ≤ C + s - 1 := by
    generalize s * ((C + s - 1) / s) = A at hspec ⊢
    omega
  have hsq : (0 : ℚ) < (s : ℚ) := by positivity
  have hc1 : ((C : ℚ)) ≤ (s : ℚ) * (((C + s - 1) / s : Nat) : ℚ) := by
    exact_mod_cast (Nat.cast_le (α := ℚ)).mpr hb.1
  have hc2 : (s : ℚ) * (((C + s - 1) / s : Nat) : ℚ) ≤ (C : ℚ) + (s : ℚ) - 1 := by
    have h := (Nat.cast_le (α := ℚ)).mpr hb.2
    push_cast [Nat.cast_sub (by omega : 1 ≤ C + s)] at h
    linarith [h]
  symm
  rw [Int.ceil_eq_iff]
  simp only [Int.cast_natCast]
  constructor
  · rw [lt_div_iff₀ hsq]
    nlinarith [hc2]
  · rw [div_le_iff₀ hsq]
    nlinarith [hc1]



theorem zip4With_getD_nat (f : Nat → Nat → Nat → Nat → Nat)
    (as bs cs ds : List Nat)
    (h1 : bs.length = as.length) (h2 : cs.length = as.length)
    (h3 : ds.length = as.length) (j : Nat) (hj : j < as.length) :
    (zip4With f as bs cs ds).getD j 0
      = f (as.getD j 0) (bs.getD j 0) (cs.getD j 0) (ds.getD j 0) := by
  induction as generalizing bs cs ds j with
  | nil => simp at hj
  | cons a as' IH =>
    cases bs with
    | nil => simp at h1
    | cons b bs' =>
      cases cs with
      | nil => simp at h2
      | cons c cs' =>
        cases ds with
        | nil => simp at h3
        | cons d ds' =>
          cases j with
          | zero => rfl
          | succ j' =>
            show (zip4With f as' bs' cs' ds').getD j' 0 = _
            exact IH bs' cs' ds' (by simpa using h1) (by simpa using h2)
              (by simpa using h3) j' (by simpa using hj)

theorem pool_shape_aux (noop o_ ks ss : List Nat)
    (ho : o_.length = ks.length) (hss : ss.length = ks.length) :
    ((List.range noop.length
      ++ (List.range ks.length).map (fun j => noop.length + 2 * j + 1)
      ++ (List.range ks.length).map (fun j => noop.length + 2 * j)).map
        (fun a => (noop ++ (zip3With (fun k o s => (k, o, s)) ks o_ ss).flatMap
          (fun q => [q.1, q.2.1])).getD a 0))
      = noop ++ o_ ++ ks := by
  have hko : (zip3With (fun k o s => (k, o, s)) ks o_ ss).length = ks.length :=
    zip3With_length_eq _ ks o_ ss ho hss
  rw [List.map_append, List.map_append]
  refine congrArg₂ (· ++ ·) (congrArg₂ (· ++ ·) (map_range_getD_append noop _) ?_) ?_
  · rw [List.map_map]
    have hstep : ∀ j : Nat,
        ((fun a => (noop ++ (zip3With (fun k o s => (k, o, s)) ks o_ ss).flatMap
            (fun q => [q.1, q.2.1])).getD a 0) ∘ (fun j => noop.length + 2 * j + 1)) j
          = ((zip3With (fun k o s => (k, o, s)) ks o_ ss).flatMap
              (fun q => [q.1, q.2.1])).getD (2 * j + 1) 0 := by
      intro j
      show (noop ++ _).getD (noop.length + 2 * j + 1) 0 = _
      rw [List.getD_append_right _ _ _ _ (by omega)]
      congr 1
      omega
    rw [List.map_congr_left (fun j _ => hstep j)]
    rw [← hko]
    rw [map_range_getD_flatMap_pair_snd (zip3With (fun k o s => (k, o, s)) ks o_ ss)
      (fun q => q.1) (fun q => q.2.1)]
    exact zip3With_map_snd ks o_ ss ho hss
  · rw [List.map_map]
    have hstep : ∀ j : Nat,
        ((fun a => (noop ++ (zip3With (fun k o s => (k, o, s)) ks o_ ss).flatMap
            (fun q => [q.1, q.2.1])).getD a 0) ∘ (fun j => noop.length + 2 * j)) j
          = ((zip3With (fun k o s => (k, o, s)) ks o_ ss).flatMap
              (fun q => [q.1, q.2.1])).getD (2 * j) 0 := by
      intro j
      show (noop ++ _).getD (noop.length + 2 * j) 0 = _
      rw [List.getD_append_right _ _ _ _ (by omega)]
      congr 1
      omega
    rw [List.map_congr_left (fun j _ => hstep j)]
    rw [← hko]
    rw [map_range_getD_flatMap_pair_fst (zip3With (fun k o s => (k, o, s)) ks o_ ss)
      (fun q => q.1) (fun q => q.2.1)]
    exact zip3With_map_fst ks o_ ss ho hss



/-- **C4**: for every view `st` with at least `ks.length` axes,
`pool(st, ks, s, d)` returns a view whose shape is
`[...leading, ...outputSizes, ...ks]`: the leading axes (st's shape minus
its trailing `ks.length` axes) unchanged, then for each trailing axis the
output extent `o = ceil((i - d*(k-1)) / s)`, then the kernel sizes.
Stated on the non-degenerate domain (`k, s ≥ 1`, `d*(k-1) ≤ i`) where
the embedding's `Nat` arithmetic coincides with the source's. -/
theorem pool_shape_formula (st : ShapeTracker) (ks ss ds : List Nat)
    (hm : ks.length ≤ st.shape.length)
    (hss : ss.length = ks.length) (hds : ds.length = ks.length)
    (hk : ∀ j < ks.length, 1 ≤ ks.getD j 0)
    (hs1 : ∀ j < ks.length, 1 ≤ ss.getD j 0)
    (hdom : ∀ j < ks.length,
      ds.getD j 0 * (ks.getD j 0 - 1)
        ≤ (st.shape.drop (st.shape.length - ks.length)).getD j 0) :
    (pool st ks ss ds).shape
      = st.shape.take (st.shape.length - ks.length)
        ++ zip4With poolOutExtent (st.shape.drop (st.shape.length - ks.length)) ds ks ss
        ++ ks
    ∧ ∀ j < ks.length,
      ((zip4With poolOutExtent (st.shape.drop (st.shape.length - ks.length)) ds ks ss).getD j 0 : ℤ)
        = ⌈(((st.shape.drop (st.shape.length - ks.length)).getD j 0 : ℚ)
            - (ds.getD j 0 : ℚ) * ((ks.getD j 0 : ℚ) - 1)) / (ss.getD j 0 : ℚ)⌉ := by
  have hi : (st.shape.drop (st.shape.length - ks.length)).length = ks.length := by
    rw [List.length_drop]
    omega
  have ho : (zip4With poolOutExtent (st.shape.drop (st.shape.length - ks.length))
      ds ks ss).length = ks.length := by
    rw [zip4With_length_eq poolOutExtent _ ds ks ss (by omega) (by omega) (by omega)]
    exact hi
  constructor
  · exact pool_shape_aux (st.shape.take (st.shape.length - ks.length))
      (zip4With poolOutExtent (st.shape.drop (st.shape.length - ks.length)) ds ks ss)
      ks ss ho hss
  · intro j hj
    rw [zip4With_getD_nat poolOutExtent (st.shape.drop (st.shape.length - ks.length))
      ds ks ss (by omega) (by omega) (by omega) j (by omega)]
    show ((((st.shape.drop (st.shape.length - ks.length)).getD j 0
        - ds.getD j 0 * (ks.getD j 0 - 1) + ss.getD j 0 - 1) / ss.getD j 0 : Nat) : ℤ) = _
    rw [natCeilDiv_cast_eq_ceil _ _ (hs1 j hj)]
    congr 1
    rw [Nat.cast_sub (hdom j hj), Nat.cast_mul, Nat.cast_sub (hk j hj)]
    norm_num



/-- Witness for `pool_shape_formula` at the 1-D convolution scenario:
pooling `[1, 1, 5]` with kernel `[3]`, stride 1, dilation 1 yields shape
`[1, 1, 3, 3]`. -/
theorem pool_shape_formula_witness :
    (pool (ShapeTracker.fromShape [1, 1, 5]) [3] [1] [1]).shape = [1, 1, 3, 3] := by
  rw [(pool_shape_formula (ShapeTracker.fromShape [1, 1, 5]) [3] [1] [1]
    (by decide) (by decide) (by decide) (by decide) (by decide) (by decide)).1]
  rfl



theorem jsCeilDiv_eq_ceil (a b : Int) (hb : 0 < b) :
    jsCeilDiv a b = ⌈(a : ℚ) / (b : ℚ)⌉ := by
  have hbn : ((b.toNat : ℕ) : ℤ) = b := Int.toNat_of_nonneg hb.le
  have hceil : ⌈(a : ℚ) / (b : ℚ)⌉ = -⌊-((a : ℚ) / (b : ℚ))⌋ := by
    rw [Int.floor_neg]
    ring
  rw [hceil, ← neg_div]
  have hna : (-(a : ℚ)) = ((-a : ℤ) : ℚ) := by push_cast; ring
  rw [hna]
  have hb2 : ((b : ℤ) : ℚ) = ((b.toNat : ℕ) : ℚ) := by
    exact_mod_cast congrArg (fun z : ℤ => (z : ℚ)) hbn.symm
  rw [hb2, Rat.floor_intCast_div_natCast, hbn]
  rfl

theorem convSpatialOut_ok_iff (x k : Nat) (s : Int) (pd : Int × Int) (ld rd : Int)
    (o : Int) :
    convSpatialOut x k s pd ld rd = .ok o ↔
      (0 < s ∧ 0 ≤ pd.1 ∧ 0 ≤ pd.2 ∧ 0 < ld ∧ 0 < rd ∧ k ≠ 0 ∧
       ((k : Int) - 1) * rd + 1 ≤ max (((x : Int) - 1) * ld + 1) 0 + pd.1 + pd.2 ∧
       o = jsCeilDiv (max (((x : Int) - 1) * ld + 1) 0 + pd.1 + pd.2
            - (((k : Int) - 1) * rd + 1) + 1) s) := by
  unfold convSpatialOut
  split_ifs with h1 h2 h3 h4 h5
  · exact iff_of_false (by simp) (by rintro ⟨hs, -⟩; omega)
  · exact iff_of_false (by simp)
      (by rintro ⟨-, hp1, hp2, -⟩; rcases h2 with h | h <;> omega)
  · exact iff_of_false (by simp) (by rintro ⟨-, -, -, hl, -⟩; omega)
  · exact iff_of_false (by simp) (by rintro ⟨-, -, -, -, hr, -⟩; omega)
  · exact iff_of_false (by simp) (by rintro ⟨-, -, -, -, -, hk, -⟩; exact hk h5)
  · dsimp only
    split_ifs with h6
    · exact iff_of_false (by simp) (by rintro ⟨-, -, -, -, -, -, hle, -⟩; omega)
    · push_neg at h2
      simp only [Except.ok.injEq]
      constructor
      · intro ho
        exact ⟨by omega, h2.1, h2.2, by omega, by omega, h5, by omega, ho.symm⟩
      · rintro ⟨-, -, -, -, -, -, -, ho⟩
        exact ho.symm

theorem convSpatialOut_isOk_iff (x k : Nat) (s : Int) (pd : Int × Int) (ld rd : Int) :
    (convSpatialOut x k s pd ld rd).isOk = true ↔
      (0 < s ∧ 0 ≤ pd.1 ∧ 0 ≤ pd.2 ∧ 0 < ld ∧ 0 < rd ∧ k ≠ 0 ∧
       ((k : Int) - 1) * rd + 1 ≤ max (((x : Int) - 1) * ld + 1) 0 + pd.1 + pd.2) := by
  unfold convSpatialOut
  split_ifs with h1 h2 h3 h4 h5
  · exact iff_of_false (by simp [Except.isOk, Except.toBool]) (by rintro ⟨hs, -⟩; omega)
  · exact iff_of_false (by simp [Except.isOk, Except.toBool])
      (by rintro ⟨-, hp1, hp2, -⟩; rcases h2 with h | h <;> omega)
  · exact iff_of_false (by simp [Except.isOk, Except.toBool])
      (by rintro ⟨-, -, -, hl, -⟩; omega)
  · exact iff_of_false (by simp [Except.isOk, Except.toBool])
      (by rintro ⟨-, -, -, -, hr, -⟩; omega)
  · exact iff_of_false (by simp [Except.isOk, Except.toBool])
      (by rintro ⟨-, -, -, -, -, hk, -⟩; exact hk h5)
  · dsimp only
    split_ifs with h6
    · exact iff_of_false (by simp [Except.isOk, Except.toBool])
        (by rintro ⟨-, -, -, -, -, -, hle⟩; omega)
    · push_neg at h2
      exact iff_of_true (by simp [Except.isOk, Except.toBool])
        ⟨by omega, h2.1, h2.2, by omega, by omega, h5, by omega⟩



theorem convSpatialLoop_ok (xs ks : List Nat) (ss : List Int) (pds : List (Int × Int))
    (lds rds : List Int) (os : List Int)
    (h : convSpatialLoop xs ks ss pds lds rds = .ok os) :
    os.length = xs.length ∧
    ∀ j < xs.length,
      convSpatialOut (xs.getD j 0) (ks.getD j 0) (ss.getD j 0) (pds.getD j (0, 0))
        (lds.getD j 0) (rds.getD j 0) = .ok (os.getD j 0) := by
  induction xs generalizing ks ss pds lds rds os with
  | nil =>
    cases ks with
    | cons _ _ => exact absurd h (by simp [convSpatialLoop])
    | nil =>
      cases ss with
      | cons _ _ => exact absurd h (by simp [convSpatialLoop])
      | nil =>
        cases pds with
        | cons _ _ => exact absurd h (by simp [convSpatialLoop])
        | nil =>
          cases lds with
          | cons _ _ => exact absurd h (by simp [convSpatialLoop])
          | nil =>
            cases rds with
            | cons _ _ => exact absurd h (by simp [convSpatialLoop])
            | nil =>
              simp only [convSpatialLoop, Except.ok.injEq] at h
              subst h
              exact ⟨rfl, fun j hj => absurd hj (by simp)⟩
  | cons x xs' IH =>
    cases ks with
    | nil => exact absurd h (by simp [convSpatialLoop])
    | cons k ks' =>
      cases ss with
      | nil => exact absurd h (by simp [convSpatialLoop])
      | cons s ss' =>
        cases pds with
        | nil => exact absurd h (by simp [convSpatialLoop])
        | cons pd pds' =>
          cases lds with
          | nil => exact absurd h (by simp [convSpatialLoop])
          | cons ld lds' =>
            cases rds with
            | nil => exact absurd h (by simp [convSpatialLoop])
            | cons rd rds' =>
              rw [convSpatialLoop] at h
              cases h1 : convSpatialOut x k s pd ld rd with
              | error e => rw [h1] at h; exact absurd h (by simp)
              | ok o =>
                rw [h1] at h
                cases h2 : convSpatialLoop xs' ks' ss' pds' lds' rds' with
                | error e => rw [h2] at h; exact absurd h (by simp)
                | ok rest =>
                  rw [h2] at h
                  simp only [Except.ok.injEq] at h
                  subst h
                  obtain ⟨hlen, hall⟩ := IH ks' ss' pds' lds' rds' rest h2
                  refine ⟨by simp [hlen], fun j hj => ?_⟩
                  cases j with
                  | zero => exact h1
                  | succ j' => exact hall j' (by simpa using hj)

theorem convSpatialLoop_isOk_iff (xs ks : List Nat) (ss : List Int)
    (pds : List (Int × Int)) (lds rds : List Int)
    (hks : ks.length = xs.length) (hss : ss.length = xs.length)
    (hpds : pds.length = xs.length) (hlds : lds.length = xs.length)
    (hrds : rds.length = xs.length) :
    (convSpatialLoop xs ks ss pds lds rds).isOk = true ↔
    ∀ j < xs.length,
      (convSpatialOut (xs.getD j 0) (ks.getD j 0) (ss.getD j 0) (pds.getD j (0, 0))
        (lds.getD j 0) (rds.getD j 0)).isOk = true := by
  induction xs generalizing ks ss pds lds rds with
  | nil =>
    cases ks with
    | cons _ _ => simp at hks
    | nil =>
      cases ss with
      | cons _ _ => simp at hss
      | nil =>
        cases pds with
        | cons _ _ => simp at hpds
        | nil =>
          cases lds with
          | cons _ _ => simp at hlds
          | nil =>
            cases rds with
            | cons _ _ => simp at hrds
            | nil => simp [convSpatialLoop, Except.isOk, Except.toBool]
  | cons x xs' IH =>
    cases ks with
    | nil => simp at hks
    | cons k ks' =>
      cases ss with
      | nil => simp at hss
      | cons s ss' =>
        cases pds with
        | nil => simp at hpds
        | cons pd pds' =>
          cases lds with
          | nil => simp at hlds
          | cons ld lds' =>
            cases rds with
            | nil => simp at hrds
            | cons rd rds' =>
              have IH' := IH ks' ss' pds' lds' rds' (by simpa using hks)
                (by simpa using hss) (by simpa using hpds) (by simpa using hlds)
                (by simpa using hrds)
              rw [convSpatialLoop]
              cases h1 : convSpatialOut x k s pd ld rd with
              | error e =>
                refine iff_of_false (by simp [Except.isOk, Except.toBool]) ?_
                intro hall
                have h0 := hall 0 (by simp)
                rw [List.getD_cons_zero, List.getD_cons_zero, List.getD_cons_zero,
                  List.getD_cons_zero, List.getD_cons_zero, List.getD_cons_zero,
                  h1] at h0
                simp [Except.isOk, Except.toBool] at h0
              | ok o =>
                cases h2 : convSpatialLoop xs' ks' ss' pds' lds' rds' with
                | error e =>
                  refine iff_of_false (by simp [Except.isOk, Except.toBool]) ?_
                  intro hall
                  have hrest := IH'.mpr fun j hj => by
                    have := hall (j + 1) (by simpa using hj)
                    simpa [List.getD_cons_succ] using this
                  rw [h2] at hrest
                  simp [Except.isOk, Except.toBool] at hrest
                | ok rest =>
                  refine iff_of_true (by simp [Except.isOk, Except.toBool]) ?_
                  intro j hj
                  cases j with
                  | zero =>
                    rw [List.getD_cons_zero, List.getD_cons_zero, List.getD_cons_zero,
                      List.getD_cons_zero, List.getD_cons_zero, List.getD_cons_zero, h1]
                    simp [Except.isOk, Except.toBool]
                  | succ j' =>
                    have := IH'.mp (by rw [h2]; simp [Except.isOk, Except.toBool])
                      j' (by simpa using hj)
                    simpa [List.getD_cons_succ] using this



theorem getD_drop_two (l : List Nat) (i : Nat) :
    (l.drop 2).getD i 0 = l.getD (i + 2) 0 := by
  rw [List.getD_eq_getElem?_getD, List.getD_eq_getElem?_getD, List.getElem?_drop]
  rw [show 2 + i = i + 2 by omega]

theorem checkConvShape_ok_decomp (lhs rhs : List Nat) (p : ConvParams) (out : List Int)
    (h : checkConvShape lhs rhs p = .ok out) :
    2 ≤ lhs.length ∧ lhs.length = rhs.length ∧
    p.strides.length = lhs.length - 2 ∧ p.padding.length = lhs.length - 2 ∧
    p.lhsDilation.length = lhs.length - 2 ∧ p.rhsDilation.length = lhs.length - 2 ∧
    lhs.getD 1 0 = rhs.getD 1 0 ∧
    ∃ spatial,
      convSpatialLoop (lhs.drop 2) (rhs.drop 2) p.strides p.padding
        p.lhsDilation p.rhsDilation = .ok spatial ∧
      out = (lhs.getD 0 0 : Int) :: (rhs.getD 0 0 : Int) :: spatial := by
  unfold checkConvShape at h
  have g1 : ¬(lhs.length ≠ rhs.length) := by
    intro hc; rw [if_pos hc] at h; exact absurd h (by simp)
  rw [if_neg g1] at h
  have g2 : ¬(lhs.length < 2) := by
    intro hc; rw [if_pos hc] at h; exact absurd h (by simp)
  rw [if_neg g2] at h
  have g3 : ¬(p.strides.length ≠ lhs.length - 2) := by
    intro hc; rw [if_pos hc] at h; exact absurd h (by simp)
  rw [if_neg g3] at h
  have g4 : ¬(p.padding.length ≠ lhs.length - 2) := by
    intro hc; rw [if_pos hc] at h; exact absurd h (by simp)
  rw [if_neg g4] at h
  have g5 : ¬(p.lhsDilation.length ≠ lhs.length - 2) := by
    intro hc; rw [if_pos hc] at h; exact absurd h (by simp)
  rw [if_neg g5] at h
  have g6 : ¬(p.rhsDilation.length ≠ lhs.length - 2) := by
    intro hc; rw [if_pos hc] at h; exact absurd h (by simp)
  rw [if_neg g6] at h
  have g7 : ¬(lhs.getD 1 0 ≠ rhs.getD 1 0) := by
    intro hc; rw [if_pos hc] at h; exact absurd h (by simp)
  rw [if_neg g7] at h
  cases hloop : convSpatialLoop (lhs.drop 2) (rhs.drop 2) p.strides p.padding
      p.lhsDilation p.rhsDilation with
  | error e => rw [hloop] at h; exact absurd h (by simp)
  | ok spatial =>
    rw [hloop] at h
    simp only [Except.ok.injEq] at h
    exact ⟨by omega, by omega, by omega, by omega, by omega, by omega,
      by simpa using g7, spatial, rfl, h.symm⟩



/-- **C2**: whenever `checkConvShape` returns (does not throw), the returned
shape is `[batch, outChannels, ...spatialOut]` with `batch = lhsShape[0]`,
`outChannels = rhsShape[0]`, and each spatial extent equal to
`ceil((inSize - kernelSize + 1) / strides[i])` where
`inSize = max((lhsShape[i+2]-1)*lhsDilation[i]+1, 0) + padding[i][0] +
padding[i][1]` and `kernelSize = (rhsShape[i+2]-1)*rhsDilation[i]+1`. -/
theorem checkConvShape_ok_formula (lhs rhs : List Nat) (p : ConvParams) (out : List Int)
    (h : checkConvShape lhs rhs p = .ok out) :
    out.length = lhs.length ∧
    out.getD 0 0 = (lhs.getD 0 0 : Int) ∧
    out.getD 1 0 = (rhs.getD 0 0 : Int) ∧
    ∀ i < lhs.length - 2,
      out.getD (i + 2) 0
        = ⌈((max (((lhs.getD (i + 2) 0 : Int) - 1) * p.lhsDilation.getD i 0 + 1) 0
              + (p.padding.getD i (0, 0)).1 + (p.padding.getD i (0, 0)).2
              - (((rhs.getD (i + 2) 0 : Int) - 1) * p.rhsDilation.getD i 0 + 1) + 1 : Int) : ℚ)
            / ((p.strides.getD i 0 : Int) : ℚ)⌉ := by
  obtain ⟨hr2, hlr, hsl, hpl, hll, hrl, hch, spatial, hloop, hout⟩ :=
    checkConvShape_ok_decomp lhs rhs p out h
  obtain ⟨hslen, hall⟩ := convSpatialLoop_ok _ _ _ _ _ _ _ hloop
  have hd2 : (lhs.drop 2).length = lhs.length - 2 := by
    simp [List.length_drop]
  subst hout
  refine ⟨by simp [hslen, hd2]; omega, rfl, rfl, fun i hi => ?_⟩
  have hax := hall i (by omega)
  rw [getD_drop_two, getD_drop_two] at hax
  obtain ⟨hs, hp1, hp2, hld, hrd, hk, hle, ho⟩ := (convSpatialOut_ok_iff _ _ _ _ _ _ _).mp hax
  show spatial.getD i 0 = _
  rw [ho, jsCeilDiv_eq_ceil _ _ hs]

/-- **C10** (implicit): whenever `checkConvShape` returns normally, every
spatial extent of the returned output shape is at least 1, because the
kernel-size check guarantees `inSize - kernelSize + 1 >= 1` before
ceil-division by the positive stride. -/
theorem checkConvShape_spatial_pos (lhs rhs : List Nat) (p : ConvParams) (out : List Int)
    (h : checkConvShape lhs rhs p = .ok out) :
    ∀ i, 2 ≤ i → i < out.length → 1 ≤ out.getD i 0 := by
  obtain ⟨hr2, hlr, hsl, hpl, hll, hrl, hch, spatial, hloop, hout⟩ :=
    checkConvShape_ok_decomp lhs rhs p out h
  obtain ⟨hslen, hall⟩ := convSpatialLoop_ok _ _ _ _ _ _ _ hloop
  have hd2 : (lhs.drop 2).length = lhs.length - 2 := by
    simp [List.length_drop]
  subst hout
  intro i h2i hilen
  obtain ⟨j, rfl⟩ : ∃ j, i = j + 2 := ⟨i - 2, by omega⟩
  have hjlen : j < (lhs.drop 2).length := by
    simp only [List.length_cons] at hilen
    omega
  have hax := hall j hjlen
  obtain ⟨hs, hp1, hp2, hld, hrd, hk, hle, ho⟩ := (convSpatialOut_ok_iff _ _ _ _ _ _ _).mp hax
  show 1 ≤ spatial.getD j 0
  rw [ho, jsCeilDiv_eq_ceil _ _ hs]
  have hnum : (1 : ℚ) ≤ ((max (((((lhs.drop 2).getD j 0) : Int) - 1) * p.lhsDilation.getD j 0 + 1) 0
      + (p.padding.getD j (0, 0)).1 + (p.padding.getD j (0, 0)).2
      - ((((rhs.drop 2).getD j 0 : Int) - 1) * p.rhsDilation.getD j 0 + 1) + 1 : Int) : ℚ) := by
    have : (1 : Int) ≤ max ((((lhs.drop 2).getD j 0 : Int) - 1) * p.lhsDilation.getD j 0 + 1) 0
        + (p.padding.getD j (0, 0)).1 + (p.padding.getD j (0, 0)).2
        - ((((rhs.drop 2).getD j 0 : Int) - 1) * p.rhsDilation.getD j 0 + 1) + 1 := by
      omega
    exact_mod_cast this
  have hpos : 0 < ⌈((max (((((lhs.drop 2).getD j 0) : Int) - 1) * p.lhsDilation.getD j 0 + 1) 0
      + (p.padding.getD j (0, 0)).1 + (p.padding.getD j (0, 0)).2
      - ((((rhs.drop 2).getD j 0 : Int) - 1) * p.rhsDilation.getD j 0 + 1) + 1 : Int) : ℚ)
        / ((p.strides.getD j 0 : Int) : ℚ)⌉ := by
    rw [Int.ceil_pos]
    apply div_pos (by linarith)
    exact_mod_cast hs
  omega



/-- Witness for `checkConvShape_ok_formula` with non-unit stride and
non-unit dilation together: input `[1,1,10]`, kernel `[1,1,3]`, stride 2,
padding `(1,1)`, rhs dilation 2 gives output shape `[1,1,4]` and the
documented ceiling formula. -/
theorem checkConvShape_ok_formula_witness :
    checkConvShape [1, 1, 10] [1, 1, 3] ⟨[2], [(1, 1)], [1], [2]⟩ = .ok [1, 1, 4] ∧
    ([1, 1, 4] : List Int).getD 2 0
      = ⌈((max ((((10 : Nat) : Int) - 1) * 1 + 1) 0 + 1 + 1
            - ((((3 : Nat) : Int) - 1) * 2 + 1) + 1 : Int) : ℚ) / (((2 : Int)) : ℚ)⌉ := by
  have h : checkConvShape [1, 1, 10] [1, 1, 3] ⟨[2], [(1, 1)], [1], [2]⟩
      = .ok [1, 1, 4] := by rfl
  exact ⟨h, (checkConvShape_ok_formula _ _ _ _ h).2.2.2 0 (by decide)⟩

/-- Witness for `checkConvShape_spatial_pos` at the non-unit
stride/dilation case: the spatial extent of the output `[1,1,4]` is
positive. -/
theorem checkConvShape_spatial_pos_witness :
    1 ≤ ([1, 1, 4] : List Int).getD 2 0 := by
  have h : checkConvShape [1, 1, 10] [1, 1, 3] ⟨[2], [(1, 1)], [1], [2]⟩
      = .ok [1, 1, 4] := by rfl
  exact checkConvShape_spatial_pos _ _ _ _ h 2 (by decide) (by decide)



/-- Distribute a bounded existential over a disjunction. -/
theorem bex_or_split (n : Nat) (A B : Nat → Prop) :
    (∃ i, i < n ∧ (A i ∨ B i)) ↔ (∃ i, i < n ∧ A i) ∨ (∃ i, i < n ∧ B i) := by
  constructor
  · rintro ⟨i, hi, h | h⟩
    exacts [Or.inl ⟨i, hi, h⟩, Or.inr ⟨i, hi, h⟩]
  · rintro (⟨i, hi, h⟩ | ⟨i, hi, h⟩)
    exacts [⟨i, hi, Or.inl h⟩, ⟨i, hi, Or.inr h⟩]

/-- The failure conditions of `checkConvShape` exactly as claim C3 enumerates
them: rank mismatch; spatial-dimension count disagreeing with a parameter
list length; differing input channel counts; a non-positive stride or
dilation; a negative padding entry; or a dilated kernel extent that
exceeds the padded dilated input extent. -/
def convShapeErrClaim (lhs rhs : List Nat) (p : ConvParams) : Prop :=
  lhs.length ≠ rhs.length
  ∨ (p.strides.length : Int) ≠ (lhs.length : Int) - 2
  ∨ (p.padding.length : Int) ≠ (lhs.length : Int) - 2
  ∨ (p.lhsDilation.length : Int) ≠ (lhs.length : Int) - 2
  ∨ (p.rhsDilation.length : Int) ≠ (lhs.length : Int) - 2
  ∨ lhs.getD 1 0 ≠ rhs.getD 1 0
  ∨ (∃ i, i < lhs.length - 2 ∧ (p.strides.getD i 0 ≤ 0 ∨ p.lhsDilation.getD i 0 ≤ 0
      ∨ p.rhsDilation.getD i 0 ≤ 0))
  ∨ (∃ i, i < lhs.length - 2 ∧
      ((p.padding.getD i (0, 0)).1 < 0 ∨ (p.padding.getD i (0, 0)).2 < 0))
  ∨ (∃ i, i < lhs.length - 2 ∧
      max (((lhs.getD (i + 2) 0 : Int) - 1) * p.lhsDilation.getD i 0 + 1) 0
        + (p.padding.getD i (0, 0)).1 + (p.padding.getD i (0, 0)).2
        < ((rhs.getD (i + 2) 0 : Int) - 1) * p.rhsDilation.getD i 0 + 1)

instance (lhs rhs : List Nat) (p : ConvParams) :
    Decidable (convShapeErrClaim lhs rhs p) := by
  unfold convShapeErrClaim
  infer_instance

/-- Claim C3's condition list amended by the one case it misses: a spatial
kernel extent of zero, which the source rejects ("kernel size must be
positive") although none of the claim's conditions hold. -/
def convShapeErrAmended (lhs rhs : List Nat) (p : ConvParams) : Prop :=
  convShapeErrClaim lhs rhs p ∨ (∃ i, i < lhs.length - 2 ∧ rhs.getD (i + 2) 0 = 0)

/-- **C3, counterexample**: `checkConvShape` can throw although none of the
conditions enumerated by the claim holds: with `lhsShape = [1,1,5]`,
`rhsShape = [1,1,0]`, and default parameters, the source throws
"kernel size must be positive", yet the ranks agree, all parameter-list
lengths agree, the channels agree, all strides/dilations are positive,
paddings non-negative, and the dilated kernel extent `(0-1)*1+1 = 0`
does not exceed the padded input extent `5`. -/
theorem checkConvShape_throw_claim_counterexample :
    (checkConvShape [1, 1, 5] [1, 1, 0] ⟨[1], [(0, 0)], [1], [1]⟩).isOk = false ∧
    ¬ convShapeErrClaim [1, 1, 5] [1, 1, 0] ⟨[1], [(0, 0)], [1], [1]⟩ := by
  constructor
  · rfl
  · decide



/-- **C3, amended**: `checkConvShape` throws exactly when one of the claim's
conditions holds *or some kernel spatial extent is zero* (the condition
the claim omits); in every other case it returns normally. -/
theorem checkConvShape_throw_iff (lhs rhs : List Nat) (p : ConvParams) :
    (checkConvShape lhs rhs p).isOk = false ↔ convShapeErrAmended lhs rhs p := by
  unfold checkConvShape
  by_cases g1 : lhs.length ≠ rhs.length
  · rw [if_pos g1]
    exact iff_of_true rfl (Or.inl (Or.inl g1))
  rw [if_neg g1]
  by_cases g2 : lhs.length < 2
  · rw [if_pos g2]
    exact iff_of_true rfl (Or.inl (Or.inr (Or.inl (by omega))))
  rw [if_neg g2]
  by_cases g3 : p.strides.length ≠ lhs.length - 2
  · rw [if_pos g3]
    exact iff_of_true rfl (Or.inl (Or.inr (Or.inl (by omega))))
  rw [if_neg g3]
  by_cases g4 : p.padding.length ≠ lhs.length - 2
  · rw [if_pos g4]
    exact iff_of_true rfl (Or.inl (Or.inr (Or.inr (Or.inl (by omega)))))
  rw [if_neg g4]
  by_cases g5 : p.lhsDilation.length ≠ lhs.length - 2
  · rw [if_pos g5]
    exact iff_of_true rfl (Or.inl (Or.inr (Or.inr (Or.inr (Or.inl (by omega))))))
  rw [if_neg g5]
  by_cases g6 : p.rhsDilation.length ≠ lhs.length - 2
  · rw [if_pos g6]
    exact iff_of_true rfl (Or.inl (Or.inr (Or.inr (Or.inr (Or.inr (Or.inl (by omega)))))))
  rw [if_neg g6]
  by_cases g7 : lhs.getD 1 0 ≠ rhs.getD 1 0
  · rw [if_pos g7]
    exact iff_of_true rfl (Or.inl (Or.inr (Or.inr (Or.inr (Or.inr (Or.inr (Or.inl g7)))))))
  rw [if_neg g7]
  have hld : (lhs.drop 2).length = lhs.length - 2 := by simp
  have hloopiff := convSpatialLoop_isOk_iff (lhs.drop 2) (rhs.drop 2) p.strides
    p.padding p.lhsDilation p.rhsDilation (by simp; omega) (by simp; omega)
    (by simp; omega) (by simp; omega) (by simp; omega)
  have hmatch : ∀ (l : Except String (List Int)),
      (match l with
        | Except.error e => Except.error e
        | Except.ok spatial =>
            Except.ok ((lhs.getD 0 0 : Int) :: (rhs.getD 0 0 : Int) :: spatial)).isOk
        = l.isOk := by
    intro l
    cases l <;> rfl
  rw [hmatch]
  have hfalse : ((convSpatialLoop (lhs.drop 2) (rhs.drop 2) p.strides p.padding
      p.lhsDilation p.rhsDilation).isOk = false)
      ↔ ¬((convSpatialLoop (lhs.drop 2) (rhs.drop 2) p.strides p.padding
      p.lhsDilation p.rhsDilation).isOk = true) := by
    simp
  rw [hfalse, hloopiff]
  push_neg
  have hax : ∀ i, i < (lhs.drop 2).length →
      (((convSpatialOut ((lhs.drop 2).getD i 0) ((rhs.drop 2).getD i 0)
          (p.strides.getD i 0) (p.padding.getD i (0, 0)) (p.lhsDilation.getD i 0)
          (p.rhsDilation.getD i 0)).isOk ≠ true) ↔
        ((p.strides.getD i 0 ≤ 0 ∨ p.lhsDilation.getD i 0 ≤ 0 ∨ p.rhsDilation.getD i 0 ≤ 0)
         ∨ ((p.padding.getD i (0, 0)).1 < 0 ∨ (p.padding.getD i (0, 0)).2 < 0)
         ∨ (max (((lhs.getD (i + 2) 0 : Int) - 1) * p.lhsDilation.getD i 0 + 1) 0
              + (p.padding.getD i (0, 0)).1 + (p.padding.getD i (0, 0)).2
              < ((rhs.getD (i + 2) 0 : Int) - 1) * p.rhsDilation.getD i 0 + 1)
         ∨ rhs.getD (i + 2) 0 = 0)) := by
    intro i hi
    rw [ne_eq, convSpatialOut_isOk_iff, getD_drop_two, getD_drop_two]
    simp only [not_and_or, not_lt, not_le, ne_eq, not_not]
    constructor
    · intro h
      tauto
    · intro h
      tauto
  refine Iff.trans (exists_congr fun i => and_congr_right fun hi => hax i hi) ?_
  rw [hld]
  rw [bex_or_split (lhs.length - 2)
    (fun i => p.strides.getD i 0 ≤ 0 ∨ p.lhsDilation.getD i 0 ≤ 0
      ∨ p.rhsDilation.getD i 0 ≤ 0)
    (fun i => ((p.padding.getD i (0, 0)).1 < 0 ∨ (p.padding.getD i (0, 0)).2 < 0)
      ∨ (max (((lhs.getD (i + 2) 0 : Int) - 1) * p.lhsDilation.getD i 0 + 1) 0
          + (p.padding.getD i (0, 0)).1 + (p.padding.getD i (0, 0)).2
          < ((rhs.getD (i + 2) 0 : Int) - 1) * p.rhsDilation.getD i 0 + 1)
      ∨ rhs.getD (i + 2) 0 = 0)]
  rw [bex_or_split (lhs.length - 2)
    (fun i => (p.padding.getD i (0, 0)).1 < 0 ∨ (p.padding.getD i (0, 0)).2 < 0)
    (fun i => (max (((lhs.getD (i + 2) 0 : Int) - 1) * p.lhsDilation.getD i 0 + 1) 0
          + (p.padding.getD i (0, 0)).1 + (p.padding.getD i (0, 0)).2
          < ((rhs.getD (i + 2) 0 : Int) - 1) * p.rhsDilation.getD i 0 + 1)
      ∨ rhs.getD (i + 2) 0 = 0)]
  rw [bex_or_split (lhs.length - 2)
    (fun i => max (((lhs.getD (i + 2) 0 : Int) - 1) * p.lhsDilation.getD i 0 + 1) 0
          + (p.padding.getD i (0, 0)).1 + (p.padding.getD i (0, 0)).2
          < ((rhs.getD (i + 2) 0 : Int) - 1) * p.rhsDilation.getD i 0 + 1)
    (fun i => rhs.getD (i + 2) 0 = 0)]
  have hf2 : ¬((p.strides.length : Int) ≠ (lhs.length : Int) - 2) := by omega
  have hf3 : ¬((p.padding.length : Int) ≠ (lhs.length : Int) - 2) := by omega
  have hf4 : ¬((p.lhsDilation.length : Int) ≠ (lhs.length : Int) - 2) := by omega
  have hf5 : ¬((p.rhsDilation.length : Int) ≠ (lhs.length : Int) - 2) := by omega
  unfold convShapeErrAmended convShapeErrClaim
  constructor
  · rintro (h | h | h | h)
    · exact Or.inl (Or.inr (Or.inr (Or.inr (Or.inr (Or.inr (Or.inr (Or.inl h)))))))
    · exact Or.inl (Or.inr (Or.inr (Or.inr (Or.inr (Or.inr (Or.inr (Or.inr (Or.inl h))))))))
    · exact Or.inl (Or.inr (Or.inr (Or.inr (Or.inr (Or.inr (Or.inr (Or.inr (Or.inr h))))))))
    · exact Or.inr h
  · rintro (h | h)
    · rcases h with h | h | h | h | h | h | h | h | h
      · exact absurd h g1
      · exact absurd h hf2
      · exact absurd h hf3
      · exact absurd h hf4
      · exact absurd h hf5
      · exact absurd h g7
      · exact Or.inl h
      · exact Or.inr (Or.inl h)
      · exact Or.inr (Or.inr (Or.inl h))
    · exact Or.inr (Or.inr (Or.inr h))


end JaxJs
